import Mathlib

/-!
Shallow embedding of the Pranav to-do-list application
(src/types.ts, src/pranavService.ts, src/App.tsx).

The external generative-AI calls and JSON parsing are modelled as
oracle parameters: each service wrapper takes the outcome of the
underlying model call as an `Except Unit (Option String)` value
(`Except.error _` = the call threw; `Except.ok none` = the response
had no text; `Except.ok (some t)` = the response text was `t`), and
`JSON.parse` is modelled by a `parse` function parameter.  Fresh
`crypto.randomUUID` ids and `Date.now()` timestamps are passed in
explicitly.
-/

namespace Pranav

/-- Model of the JavaScript builtin `String.prototype.trim`: removes
leading and trailing whitespace.  (Defined on the character list so it
is structurally recursive and kernel-evaluable.) -/
def jsTrim (s : String) : String :=
  ⟨((s.data.dropWhile Char.isWhitespace).reverse.dropWhile
      Char.isWhitespace).reverse⟩

/-- `Priority` enum from src/types.ts: HIGH = "High", MEDIUM = "Medium",
LOW = "Low". -/
inductive Priority where
  | HIGH
  | MEDIUM
  | LOW
deriving DecidableEq, Repr

/-- The string value carried by each `Priority` enum member in
src/types.ts. -/
def Priority.label : Priority → String
  | .HIGH => "High"
  | .MEDIUM => "Medium"
  | .LOW => "Low"

/-- `Task` interface from src/types.ts. -/
structure Task where
  id : String
  text : String
  completed : Bool
  priority : Priority
  createdAt : Nat
deriving DecidableEq, Repr

/-- `StatsData` interface from src/types.ts. -/
structure StatsData where
  name : String
  value : Nat
deriving DecidableEq, Repr

/-! ## src/pranavService.ts -/

/-- `suggestPriority` from src/pranavService.ts.  The model call outcome
is the `result` parameter.  The source computes
`const text = response.text?.trim()` and compares the trimmed text with
the literals "High" and "Medium", returning LOW otherwise; a thrown
error is caught and MEDIUM returned. -/
def suggestPriority (result : Except Unit (Option String)) : Priority :=
  match result with
  | .error _ => Priority.MEDIUM
  | .ok none => Priority.LOW
  | .ok (some s) =>
      if jsTrim s = "High" then Priority.HIGH
      else if jsTrim s = "Medium" then Priority.MEDIUM
      else Priority.LOW

/-- `breakDownTask` from src/pranavService.ts.  `parse` models
`JSON.parse` specialised to string arrays (an exception becomes
`Except.error`).  The source returns `[]` when the call throws or the
response text is absent or empty (`if (!text) return []`), and
otherwise returns the parsed array; a `JSON.parse` exception is caught
by the same try/catch and yields `[]`. -/
def breakDownTask (result : Except Unit (Option String))
    (parse : String → Except Unit (List String)) : List String :=
  match result with
  | .error _ => []
  | .ok none => []
  | .ok (some t) =>
      if t = "" then []
      else
        match parse t with
        | .error _ => []
        | .ok l => l

/-- `getMotivation` from src/pranavService.ts: on a thrown error returns
"You got this! - Pranav AI"; on success returns
`response.text || "Keep crushing it! - Pranav AI"` (absent or empty
text is falsy). -/
def getMotivation (result : Except Unit (Option String)) : String :=
  match result with
  | .error _ => "You got this! - Pranav AI"
  | .ok none => "Keep crushing it! - Pranav AI"
  | .ok (some t) => if t = "" then "Keep crushing it! - Pranav AI" else t

/-! ## src/App.tsx -/

/-- `loadTasks` from src/App.tsx.  `saved` is
`localStorage.getItem('pranav_tasks')` (`none` = key absent); `parse`
models `JSON.parse` cast to `Task[]`.  An empty saved string is falsy
(`if (saved)`), and a parse exception is caught, both yielding `[]`. -/
def loadTasks (saved : Option String)
    (parse : String → Except Unit (List Task)) : List Task :=
  match saved with
  | none => []
  | some s =>
      if s = "" then []
      else
        match parse s with
        | .error _ => []
        | .ok ts => ts

/-- `addTask` from src/App.tsx.  `newId` models `crypto.randomUUID()`
and `now` models `Date.now()`.  Blank text (falsy trimmed text) is a
no-op; otherwise a new task with the trimmed text, `completed = false`
and `priorityOverride || Priority.LOW` is prepended. -/
def addTask (newId : String) (now : Nat) (text : String)
    (priorityOverride : Option Priority) (tasks : List Task) : List Task :=
  if jsTrim text = "" then tasks
  else
    (⟨newId, jsTrim text, false, priorityOverride.getD Priority.LOW, now⟩ : Task)
      :: tasks

/-- `handleSmartAdd` from src/App.tsx, with the two AI results passed in
(`p` = result of `suggestPriority`, `subtasks` = result of
`breakDownTask`).  `ids` models the `crypto.randomUUID()` values drawn
for the subtasks (one per subtask, consumed in order) and `fid` the one
drawn inside the fallback `addTask` call.  Blank input is a no-op; a
non-empty subtask list is mapped to tasks sharing priority `p` and
prepended; an empty subtask list falls back to
`addTask(inputText, priority)`. -/
def handleSmartAdd (fid : String) (ids : List String) (now : Nat)
    (inputText : String) (p : Priority) (subtasks : List String)
    (tasks : List Task) : List Task :=
  if jsTrim inputText = "" then tasks
  else if subtasks.length > 0 then
    (List.zipWith (fun i st => (⟨i, st, false, p, now⟩ : Task)) ids subtasks)
      ++ tasks
  else addTask fid now inputText (some p) tasks

/-- `toggleTask` from src/App.tsx: maps over the list, flipping
`completed` on the task whose id matches. -/
def toggleTask (id : String) (tasks : List Task) : List Task :=
  tasks.map fun t =>
    if t.id = id then ⟨t.id, t.text, !t.completed, t.priority, t.createdAt⟩
    else t

/-- `deleteTask` from src/App.tsx: keeps the tasks whose id differs. -/
def deleteTask (id : String) (tasks : List Task) : List Task :=
  tasks.filter fun t => t.id != id

/-- The filter-tab state `activeTab` of src/App.tsx. -/
inductive Tab where
  | all
  | active
  | completed
deriving DecidableEq, Repr

/-- `filteredTasks` from src/App.tsx: "active" keeps `!t.completed`,
"completed" keeps `t.completed`, "all" keeps everything. -/
def filteredTasks (tab : Tab) (tasks : List Task) : List Task :=
  tasks.filter fun t =>
    match tab with
    | Tab.active => !t.completed
    | Tab.completed => t.completed
    | Tab.all => true

/-- The inline count expressions of `statsData` in src/App.tsx:
number of tasks with the given priority that are not completed. -/
def incompleteCount (p : Priority) (tasks : List Task) : Nat :=
  (tasks.filter fun t => decide (t.priority = p) && !t.completed).length

/-- `statsData` from src/App.tsx: the three named priority counts over
incomplete tasks, with zero-valued entries filtered out
(`.filter(d => d.value > 0)`). -/
def statsData (tasks : List Task) : List StatsData :=
  ([⟨"High", incompleteCount Priority.HIGH tasks⟩,
    ⟨"Medium", incompleteCount Priority.MEDIUM tasks⟩,
    ⟨"Low", incompleteCount Priority.LOW tasks⟩] : List StatsData).filter
    fun d => decide (0 < d.value)

/-! ## Theorems -/

/-- C2: for every text `t` that is non-blank after trimming,
`add(t, priority?)` prepends exactly one new task (length grows by one)
with `completed = false`, the trimmed text, and the override priority or
LOW by default; for blank or whitespace-only `t` the list is unchanged. -/
theorem addTask_spec (newId : String) (now : Nat) (text : String)
    (p? : Option Priority) (tasks : List Task) :
    (jsTrim text ≠ "" →
      (addTask newId now text p? tasks).length = tasks.length + 1 ∧
      ∃ u : Task, addTask newId now text p? tasks = u :: tasks ∧
        u.completed = false ∧ u.text = jsTrim text ∧
        u.priority = p?.getD Priority.LOW) ∧
    (jsTrim text = "" → addTask newId now text p? tasks = tasks) := by
  unfold addTask
  constructor
  · intro h
    rw [if_neg h]
    exact ⟨rfl, ⟨newId, jsTrim text, false, p?.getD Priority.LOW, now⟩,
      rfl, rfl, rfl, rfl⟩
  · intro h
    rw [if_pos h]

/-- Witness for `addTask_spec` at concrete inputs: "Buy milk" is
non-blank, "   " is blank. -/
theorem addTask_spec_witness :
    ((addTask "id1" 7 "Buy milk" none []).length = List.length ([] : List Task) + 1 ∧
      ∃ u : Task, addTask "id1" 7 "Buy milk" none [] = u :: [] ∧
        u.completed = false ∧ u.text = jsTrim "Buy milk" ∧
        u.priority = Option.getD none Priority.LOW) ∧
    addTask "id2" 7 "   " none [] = [] :=
  ⟨(addTask_spec "id1" 7 "Buy milk" none []).1 (by decide),
   (addTask_spec "id2" 7 "   " none []).2 (by decide)⟩

/-- C3 counterexample: the code trims the response text before the
literal comparison, so the successful response "High " (not the literal
string "High") still yields HIGH rather than the claimed LOW. -/
theorem suggestPriority_cex :
    suggestPriority (Except.ok (some "High ")) = Priority.HIGH ∧
    "High " ≠ "High" := by
  constructor
  · decide
  · decide

/-- C3 amended: `suggestPriority` returns HIGH exactly when the TRIMMED
response text is "High", MEDIUM exactly when it is "Medium", LOW for
every other successful response (including an absent text), and MEDIUM
when the underlying call fails. -/
theorem suggestPriority_spec (e : Unit) (s : String) :
    suggestPriority (Except.error e) = Priority.MEDIUM ∧
    suggestPriority (Except.ok none) = Priority.LOW ∧
    (suggestPriority (Except.ok (some s)) = Priority.HIGH ↔
      jsTrim s = "High") ∧
    (suggestPriority (Except.ok (some s)) = Priority.MEDIUM ↔
      jsTrim s = "Medium") ∧
    (jsTrim s ≠ "High" → jsTrim s ≠ "Medium" →
      suggestPriority (Except.ok (some s)) = Priority.LOW) := by
  refine ⟨rfl, rfl, ?_, ?_, ?_⟩ <;>
    by_cases h1 : jsTrim s = "High" <;>
    by_cases h2 : jsTrim s = "Medium" <;>
    simp [suggestPriority, h1, h2]

/-- Witness for `suggestPriority_spec`: a response that is neither
"High" nor "Medium" after trimming maps to LOW. -/
theorem suggestPriority_spec_witness :
    suggestPriority (Except.ok (some "urgent")) = Priority.LOW :=
  (suggestPriority_spec () "urgent").2.2.2.2 (by decide) (by decide)

/-- C4: none of the three AI wrappers lets a failure escape: on a
thrown model call `breakDownTask` returns `[]`, `suggestPriority`
returns MEDIUM, and `getMotivation` returns "You got this! - Pranav AI";
on success with absent or empty text `getMotivation` returns
"Keep crushing it! - Pranav AI", and otherwise the model text
verbatim. -/
theorem serviceFallbacks_spec (e : Unit)
    (parse : String → Except Unit (List String)) (t : String) :
    breakDownTask (Except.error e) parse = [] ∧
    suggestPriority (Except.error e) = Priority.MEDIUM ∧
    getMotivation (Except.error e) = "You got this! - Pranav AI" ∧
    getMotivation (Except.ok none) = "Keep crushing it! - Pranav AI" ∧
    getMotivation (Except.ok (some "")) = "Keep crushing it! - Pranav AI" ∧
    (t ≠ "" → getMotivation (Except.ok (some t)) = t) := by
  refine ⟨rfl, rfl, rfl, rfl, by simp [getMotivation], ?_⟩
  intro h
  simp [getMotivation, h]

/-- Witness for `serviceFallbacks_spec`: a non-empty motivational text
is passed through verbatim. -/
theorem serviceFallbacks_spec_witness :
    getMotivation (Except.ok (some "Go Pranav!")) = "Go Pranav!" :=
  (serviceFallbacks_spec () (fun _ => Except.ok []) "Go Pranav!").2.2.2.2.2
    (by decide)

/-- C5: with the storage key absent the startup list is empty, and with
stored content whose parse fails (a `JSON.parse` exception, absorbed by
the catch) the startup list is also empty; the empty stored string is
falsy and likewise yields the empty list. -/
theorem loadTasks_spec (s : String) (e : Unit)
    (parse : String → Except Unit (List Task)) :
    loadTasks none parse = [] ∧
    (parse s = Except.error e → loadTasks (some s) parse = []) ∧
    loadTasks (some "") parse = [] := by
  refine ⟨rfl, ?_, by simp [loadTasks]⟩
  intro h
  by_cases hs : s = "" <;> simp [loadTasks, hs, h]

/-- Witness for `loadTasks_spec`: invalid stored content (its parse
throws) yields the empty startup list. -/
theorem loadTasks_spec_witness :
    loadTasks (some "not json") (fun _ => Except.error ()) = [] :=
  (loadTasks_spec "not json" () (fun _ => Except.error ())).2.1 rfl

/-- C9 counterexample: a successful model response whose text "[]"
parses to the empty string array makes `breakDownTask` return a
sequence of 0 subtasks, not between 3 and 5. -/
theorem breakDownTask_cex :
    breakDownTask (Except.ok (some "[]")) (fun _ => Except.ok ([] : List String))
      = [] ∧
    ¬(3 ≤ ([] : List String).length ∧ ([] : List String).length ≤ 5) := by
  constructor
  · decide
  · decide

/-- C9 amended: `breakDownTask` asks the model for 3-5 subtasks in its
prompt but never validates the count: a successful response with
non-empty text that parses to a string array `l` is returned verbatim
whatever its length, a parse failure or empty/absent text yields the
empty sequence. -/
theorem breakDownTask_spec (t : String) (l : List String) (e : Unit)
    (parse : String → Except Unit (List String)) :
    (t ≠ "" → parse t = Except.ok l →
      breakDownTask (Except.ok (some t)) parse = l) ∧
    (t ≠ "" → parse t = Except.error e →
      breakDownTask (Except.ok (some t)) parse = []) ∧
    breakDownTask (Except.ok (some "")) parse = [] ∧
    breakDownTask (Except.ok none) parse = [] := by
  refine ⟨?_, ?_, by simp [breakDownTask], rfl⟩ <;>
    intro ht hp <;> simp [breakDownTask, ht, hp]

/-- Witness for `breakDownTask_spec`: a response parsing to a 6-element
array is returned with all 6 elements. -/
theorem breakDownTask_spec_witness :
    breakDownTask (Except.ok (some "x"))
      (fun _ => Except.ok ["a", "b", "c", "d", "e", "f"])
      = ["a", "b", "c", "d", "e", "f"] :=
  (breakDownTask_spec "x" ["a", "b", "c", "d", "e", "f"] ()
    (fun _ => Except.ok ["a", "b", "c", "d", "e", "f"])).1 (by decide) rfl

/-- Length of the subtask-to-task conversion in `handleSmartAdd` when
one fresh id is supplied per subtask. -/
theorem zipWith_mkTask_length (p : Priority) (now : Nat)
    (ids sts : List String) (h : ids.length = sts.length) :
    (List.zipWith (fun i st => (⟨i, st, false, p, now⟩ : Task)) ids sts).length
      = sts.length := by
  rw [List.length_zipWith, h, min_self]

/-- The texts of the converted subtasks are the subtask strings, in
order. -/
theorem zipWith_mkTask_map_text (p : Priority) (now : Nat) :
    ∀ (ids sts : List String), ids.length = sts.length →
      (List.zipWith (fun i st => (⟨i, st, false, p, now⟩ : Task)) ids
        sts).map Task.text = sts := by
  intro ids
  induction ids with
  | nil =>
    intro sts h
    cases sts with
    | nil => rfl
    | cons st sts => simp at h
  | cons i ids ih =>
    intro sts h
    cases sts with
    | nil => simp at h
    | cons st sts =>
      simp only [List.zipWith_cons_cons, List.map_cons, List.cons.injEq]
      exact ⟨trivial, ih sts (by simpa using h)⟩

/-- The ids of the converted subtasks are the supplied fresh ids, in
order. -/
theorem zipWith_mkTask_map_id (p : Priority) (now : Nat) :
    ∀ (ids sts : List String), ids.length = sts.length →
      (List.zipWith (fun i st => (⟨i, st, false, p, now⟩ : Task)) ids
        sts).map Task.id = ids := by
  intro ids
  induction ids with
  | nil =>
    intro sts h
    cases sts with
    | nil => rfl
    | cons st sts => simp at h
  | cons i ids ih =>
    intro sts h
    cases sts with
    | nil => simp at h
    | cons st sts =>
      simp only [List.zipWith_cons_cons, List.map_cons, List.cons.injEq]
      exact ⟨trivial, ih sts (by simpa using h)⟩

/-- Every converted subtask carries the suggested priority and starts
incomplete. -/
theorem zipWith_mkTask_mem (p : Priority) (now : Nat) :
    ∀ (ids sts : List String) (u : Task),
      u ∈ List.zipWith (fun i st => (⟨i, st, false, p, now⟩ : Task)) ids sts →
      u.priority = p ∧ u.completed = false := by
  intro ids
  induction ids with
  | nil => intro sts u hu; simp [List.zipWith] at hu
  | cons i ids ih =>
    intro sts u hu
    cases sts with
    | nil => simp at hu
    | cons st sts =>
      simp only [List.zipWith_cons_cons, List.mem_cons] at hu
      rcases hu with rfl | hu
      · exact ⟨rfl, rfl⟩
      · exact ih sts u hu

/-- C1 counterexample: with blank input text the smart-add handler
returns before calling the AI, so even with a non-empty decomposition
(["Book flight"], priority HIGH) no task is prepended, contradicting
the claim for arbitrary input text. -/
theorem handleSmartAdd_cex :
    (handleSmartAdd "f" ["i"] 0 " " Priority.HIGH ["Book flight"] []).length ≠
      List.length ([] : List Task) + (["Book flight"] : List String).length := by
  decide

/-- C1 amended: for input text that is non-blank after trimming (and
one fresh id per subtask): a non-empty decomposition of n subtasks
makes `handleSmartAdd` prepend exactly n tasks, the i-th having the
i-th subtask string as text, all with the suggested priority and
`completed = false`, and nothing else (so the original text appears
only if it is itself a subtask string); an empty decomposition makes it
fall back to adding exactly one task with the trimmed original text and
the suggested priority. -/
theorem handleSmartAdd_spec (fid : String) (ids : List String) (now : Nat)
    (inputText : String) (p : Priority) (subtasks : List String)
    (tasks : List Task)
    (hblank : jsTrim inputText ≠ "")
    (hlen : ids.length = subtasks.length) :
    (subtasks ≠ [] →
      (handleSmartAdd fid ids now inputText p subtasks tasks).length
        = tasks.length + subtasks.length ∧
      ((handleSmartAdd fid ids now inputText p subtasks tasks).take
          subtasks.length).map Task.text = subtasks ∧
      (∀ u ∈ (handleSmartAdd fid ids now inputText p subtasks tasks).take
          subtasks.length, u.priority = p ∧ u.completed = false) ∧
      (handleSmartAdd fid ids now inputText p subtasks tasks).drop
          subtasks.length = tasks) ∧
    (subtasks = [] →
      ∃ u : Task, handleSmartAdd fid ids now inputText p subtasks tasks
          = u :: tasks ∧
        u.text = jsTrim inputText ∧ u.priority = p ∧
        u.completed = false) := by
  constructor
  · intro hne
    have hpos : subtasks.length > 0 := List.length_pos.mpr hne
    have hgoal : handleSmartAdd fid ids now inputText p subtasks tasks
        = List.zipWith (fun i st => (⟨i, st, false, p, now⟩ : Task)) ids
            subtasks ++ tasks := by
      unfold handleSmartAdd
      rw [if_neg hblank, if_pos hpos]
    have hzlen := zipWith_mkTask_length p now ids subtasks hlen
    rw [hgoal]
    refine ⟨?_, ?_, ?_, ?_⟩
    · rw [List.length_append, hzlen]; omega
    · rw [List.take_left' hzlen, zipWith_mkTask_map_text p now ids subtasks hlen]
    · rw [List.take_left' hzlen]
      exact fun u hu => zipWith_mkTask_mem p now ids subtasks u hu
    · exact List.drop_left' hzlen
  · intro hnil
    subst hnil
    have hfall : handleSmartAdd fid ids now inputText p [] tasks
        = addTask fid now inputText (some p) tasks := by
      unfold handleSmartAdd
      rw [if_neg hblank]
      rfl
    rw [hfall]
    unfold addTask
    rw [if_neg hblank]
    exact ⟨⟨fid, jsTrim inputText, false, (some p).getD Priority.LOW, now⟩,
      rfl, rfl, rfl, rfl⟩

/-- Witness for `handleSmartAdd_spec`: "Plan trip" decomposed into two
subtasks at priority HIGH yields exactly two tasks with those texts. -/
theorem handleSmartAdd_spec_witness :
    (handleSmartAdd "f" ["i1", "i2"] 0 "Plan trip" Priority.HIGH
        ["Book flight", "Book hotel"] []).length
      = List.length ([] : List Task) + 2 ∧
    ((handleSmartAdd "f" ["i1", "i2"] 0 "Plan trip" Priority.HIGH
        ["Book flight", "Book hotel"] []).take 2).map Task.text
      = ["Book flight", "Book hotel"] := by
  have h := (handleSmartAdd_spec "f" ["i1", "i2"] 0 "Plan trip" Priority.HIGH
    ["Book flight", "Book hotel"] [] (by decide) rfl).1 (by decide)
  exact ⟨h.1, h.2.1⟩

/-- C7: the "all" tab passes the list through unchanged, the "active"
tab keeps exactly the incomplete tasks, the "completed" tab keeps
exactly the completed ones, the two are disjoint, and together they
account for every task of the "all" tab. -/
theorem filteredTasks_spec (ts : List Task) :
    filteredTasks Tab.all ts = ts ∧
    (∀ t : Task, t ∈ filteredTasks Tab.active ts ↔
      t ∈ ts ∧ t.completed = false) ∧
    (∀ t : Task, t ∈ filteredTasks Tab.completed ts ↔
      t ∈ ts ∧ t.completed = true) ∧
    (∀ t : Task, t ∈ filteredTasks Tab.active ts →
      t ∉ filteredTasks Tab.completed ts) ∧
    (filteredTasks Tab.active ts).length
        + (filteredTasks Tab.completed ts).length
      = (filteredTasks Tab.all ts).length := by
  refine ⟨?_, ?_, ?_, ?_, ?_⟩
  · simp [filteredTasks]
  · intro t; simp [filteredTasks, List.mem_filter]
  · intro t; simp [filteredTasks, List.mem_filter]
  · intro t h1 h2
    simp [filteredTasks, List.mem_filter] at h1 h2
    exact absurd (h1.2.symm.trans h2.2) (by decide)
  · induction ts with
    | nil => rfl
    | cons t ts ih =>
      cases hc : t.completed <;>
        simp [filteredTasks, List.filter_cons, hc] at ih ⊢ <;> omega

/-- Witness for `filteredTasks_spec`: an incomplete task is in the
"active" tab of its singleton list. -/
theorem filteredTasks_spec_witness :
    (⟨"a", "x", false, Priority.LOW, 0⟩ : Task)
      ∈ filteredTasks Tab.active [⟨"a", "x", false, Priority.LOW, 0⟩] :=
  ((filteredTasks_spec [⟨"a", "x", false, Priority.LOW, 0⟩]).2.1
    ⟨"a", "x", false, Priority.LOW, 0⟩).mpr ⟨by decide, rfl⟩

/-- When a task with the sought id is present in a list with pairwise
distinct ids, `deleteTask` removes exactly that one occurrence. -/
theorem deleteTask_removes_one (id : String) :
    ∀ ts : List Task, (ts.map Task.id).Nodup →
      ∀ t0 ∈ ts, t0.id = id →
        ∃ pre post t, ts = pre ++ t :: post ∧ Task.id t = id ∧
          deleteTask id ts = pre ++ post := by
  intro ts
  induction ts with
  | nil => intro _ t0 h; cases h
  | cons a ts ih =>
    intro hnodup t0 ht0 hid0
    rw [List.map_cons] at hnodup
    have hpair := List.nodup_cons.mp hnodup
    by_cases ha : a.id = id
    · refine ⟨[], ts, a, rfl, ha, ?_⟩
      have hmem : id ∉ ts.map Task.id := ha ▸ hpair.1
      have hall : ∀ u ∈ ts, (u.id != id) = true := by
        intro u hu
        simp only [bne_iff_ne, ne_eq]
        intro h
        exact hmem (h ▸ List.mem_map_of_mem Task.id hu)
      show deleteTask id (a :: ts) = [] ++ ts
      simp only [deleteTask, List.filter_cons]
      rw [show (a.id != id) = false by simp [ha]]
      simp [List.filter_eq_self.mpr hall]
    · rcases List.mem_cons.mp ht0 with rfl | ht0'
      · exact absurd hid0 ha
      · obtain ⟨pre, post, t, h1, h2, h3⟩ := ih hpair.2 t0 ht0' hid0
        refine ⟨a :: pre, post, t, by rw [h1]; rfl, h2, ?_⟩
        have h3' : List.filter (fun t => t.id != id) ts = pre ++ post := h3
        simp only [deleteTask, List.filter_cons]
        rw [show (a.id != id) = true by simp [ha]]
        simp [h3']

/-- C8 counterexample: on a list of two tasks sharing id "a" (the claim
quantifies over every task list), `deleteTask "a"` removes both tasks,
not exactly one. -/
theorem deleteTask_cex :
    (deleteTask "a"
      [(⟨"a", "x", false, Priority.LOW, 0⟩ : Task),
       (⟨"a", "y", false, Priority.LOW, 0⟩ : Task)]).length ≠
    ([(⟨"a", "x", false, Priority.LOW, 0⟩ : Task),
      (⟨"a", "y", false, Priority.LOW, 0⟩ : Task)]).length - 1 := by
  decide

/-- C8 amended: on every task list whose ids are pairwise distinct,
`delete(id)` removes exactly the one task with that id when present,
leaves the list unchanged when absent, and is idempotent (the
idempotence holds for arbitrary lists). -/
theorem deleteTask_spec (id : String) (ts : List Task)
    (hnodup : (ts.map Task.id).Nodup) :
    ((∃ t ∈ ts, t.id = id) →
      ∃ pre post t, ts = pre ++ t :: post ∧ Task.id t = id ∧
        deleteTask id ts = pre ++ post) ∧
    ((∀ t ∈ ts, t.id ≠ id) → deleteTask id ts = ts) ∧
    deleteTask id (deleteTask id ts) = deleteTask id ts := by
  refine ⟨?_, ?_, ?_⟩
  · rintro ⟨t0, ht0, hid0⟩
    exact deleteTask_removes_one id ts hnodup t0 ht0 hid0
  · intro h
    apply List.filter_eq_self.mpr
    intro a ha
    simpa using h a ha
  · simp [deleteTask, List.filter_filter]

/-- Witness for `deleteTask_spec`: deleting an absent id from a
singleton list is a no-op. -/
theorem deleteTask_spec_witness :
    deleteTask "a" [(⟨"b", "y", false, Priority.LOW, 0⟩ : Task)]
      = [(⟨"b", "y", false, Priority.LOW, 0⟩ : Task)] :=
  (deleteTask_spec "a" [⟨"b", "y", false, Priority.LOW, 0⟩]
    (by decide)).2.1 (by decide)

/-- Dropping the zero-valued entries (the `.filter(d => d.value > 0)` of
`statsData`) does not change the sum of the values. -/
theorem sum_filter_pos (l : List StatsData) :
    ((l.filter fun d => decide (0 < d.value)).map StatsData.value).sum
      = (l.map StatsData.value).sum := by
  induction l with
  | nil => rfl
  | cons d l ih =>
    by_cases h : 0 < d.value
    · simp [List.filter_cons, h, ih]
    · have hz : d.value = 0 := by omega
      simp [List.filter_cons, h, ih, hz]

/-- The three per-priority incomplete counts of `statsData` partition
the incomplete tasks. -/
theorem incompleteCount_partition (ts : List Task) :
    incompleteCount Priority.HIGH ts + incompleteCount Priority.MEDIUM ts
        + incompleteCount Priority.LOW ts
      = (ts.filter fun t => !t.completed).length := by
  induction ts with
  | nil => rfl
  | cons t ts ih =>
    unfold incompleteCount at ih ⊢
    cases hp : t.priority <;> cases hc : t.completed <;>
      simp [List.filter_cons, hp, hc] <;> omega

/-- C6: `statsData` returns no zero-valued entry, lists each priority
name at most once (each priority with at least one incomplete task
appearing exactly once), and its values sum to the number of incomplete
tasks. -/
theorem statsData_spec (ts : List Task) :
    (∀ d ∈ statsData ts, d.value ≠ 0) ∧
    ((statsData ts).map StatsData.name).Sublist ["High", "Medium", "Low"] ∧
    (∀ p : Priority, p.label ∈ (statsData ts).map StatsData.name ↔
      0 < incompleteCount p ts) ∧
    ((statsData ts).map StatsData.value).sum
      = (ts.filter fun t => !t.completed).length := by
  refine ⟨?_, ?_, ?_, ?_⟩
  · intro d hd
    have hv := (List.mem_filter.mp hd).2
    simp at hv
    omega
  · have h1 : (statsData ts).Sublist
        [⟨"High", incompleteCount Priority.HIGH ts⟩,
         ⟨"Medium", incompleteCount Priority.MEDIUM ts⟩,
         ⟨"Low", incompleteCount Priority.LOW ts⟩] := List.filter_sublist _
    simpa using h1.map StatsData.name
  · intro p
    by_cases hH : 0 < incompleteCount Priority.HIGH ts <;>
      by_cases hM : 0 < incompleteCount Priority.MEDIUM ts <;>
      by_cases hL : 0 < incompleteCount Priority.LOW ts <;>
      cases p <;>
      simp [statsData, List.filter_cons, Priority.label, hH, hM, hL]
  · show ((List.filter _ _).map StatsData.value).sum = _
    rw [sum_filter_pos]
    have h := incompleteCount_partition ts
    simp only [List.map_cons, List.map_nil, List.sum_cons, List.sum_nil]
    omega

/-- Witness for `statsData_spec`: a single incomplete HIGH task yields
the lone entry ("High", 1), whose value is nonzero. -/
theorem statsData_spec_witness :
    (⟨"High", 1⟩ : StatsData).value ≠ 0 :=
  (statsData_spec [⟨"a", "x", false, Priority.HIGH, 0⟩]).1 ⟨"High", 1⟩
    (by decide)

/-- Toggling a task changes no id and keeps the ids in order. -/
theorem toggleTask_map_id (id : String) (ts : List Task) :
    (toggleTask id ts).map Task.id = ts.map Task.id := by
  unfold toggleTask
  rw [List.map_map]
  apply List.map_congr_left
  intro a _
  by_cases h : a.id = id <;> simp [h]

/-- `addTask` preserves distinctness of the ids when the generated id
is fresh. -/
theorem addTask_nodup (newId : String) (now : Nat) (text : String)
    (p? : Option Priority) (ts : List Task)
    (hn : (ts.map Task.id).Nodup) (hfresh : ∀ t ∈ ts, t.id ≠ newId) :
    ((addTask newId now text p? ts).map Task.id).Nodup := by
  unfold addTask
  by_cases hb : jsTrim text = ""
  · rw [if_pos hb]; exact hn
  · rw [if_neg hb]
    simp only [List.map_cons]
    refine List.nodup_cons.mpr ⟨?_, hn⟩
    simp only [List.mem_map, not_exists, not_and]
    intro t ht
    exact hfresh t ht

/-- One user intent dispatched to the task store, as modelled from
src/App.tsx: a plain add, a smart add, a toggle or a delete.  The
freshness of the generated `crypto.randomUUID()` ids is carried as
hypotheses of the add constructors. -/
inductive Step : List Task → List Task → Prop where
  | add (newId : String) (now : Nat) (text : String)
      (p? : Option Priority) (ts : List Task)
      (hfresh : ∀ t ∈ ts, t.id ≠ newId) :
      Step ts (addTask newId now text p? ts)
  | smartAdd (fid : String) (ids : List String) (now : Nat) (text : String)
      (p : Priority) (subtasks : List String) (ts : List Task)
      (hlen : ids.length = subtasks.length) (hids : ids.Nodup)
      (hfresh : ∀ i ∈ ids, ∀ t ∈ ts, t.id ≠ i)
      (hfid : ∀ t ∈ ts, t.id ≠ fid) :
      Step ts (handleSmartAdd fid ids now text p subtasks ts)
  | toggle (id : String) (ts : List Task) :
      Step ts (toggleTask id ts)
  | del (id : String) (ts : List Task) :
      Step ts (deleteTask id ts)

/-- Each store operation preserves distinctness of the task ids. -/
theorem Step.nodup_preserved {ts ts' : List Task} (h : Step ts ts')
    (hn : (ts.map Task.id).Nodup) : (ts'.map Task.id).Nodup := by
  cases h with
  | add newId now text p? ts hfresh =>
    exact addTask_nodup newId now text p? ts hn hfresh
  | smartAdd fid ids now text p subtasks ts hlen hids hfresh hfid =>
    unfold handleSmartAdd
    by_cases hb : jsTrim text = ""
    · rw [if_pos hb]; exact hn
    · rw [if_neg hb]
      by_cases hs : subtasks.length > 0
      · rw [if_pos hs]
        rw [List.map_append, zipWith_mkTask_map_id p now ids subtasks hlen]
        refine List.Nodup.append hids hn ?_
        intro a ha hmem
        obtain ⟨t, ht, hid⟩ := List.mem_map.mp hmem
        exact hfresh a ha t ht hid
      · rw [if_neg hs]
        exact addTask_nodup fid now text (some p) ts hn hfid
  | toggle id ts =>
    rw [toggleTask_map_id]
    exact hn
  | del id ts =>
    unfold deleteTask
    exact List.Nodup.sublist (List.Sublist.map Task.id (List.filter_sublist ts)) hn

/-- C10: from any starting list with pairwise distinct ids, every state
reachable through add, smartAdd, toggle and delete (with fresh generated
ids) still has pairwise distinct ids; moreover both add operations only
prepend new tasks in front of the existing ones (newest first), toggle
keeps every id in place, and delete leaves the remaining tasks a
sublist (same relative order) of the original list. -/
theorem reachable_invariant :
    (∀ s₀ s : List Task, (s₀.map Task.id).Nodup →
      Relation.ReflTransGen Step s₀ s → (s.map Task.id).Nodup) ∧
    (∀ (newId : String) (now : Nat) (text : String) (p? : Option Priority)
        (ts : List Task),
      ∃ new, addTask newId now text p? ts = new ++ ts) ∧
    (∀ (fid : String) (ids : List String) (now : Nat) (text : String)
        (p : Priority) (subtasks : List String) (ts : List Task),
      ∃ new, handleSmartAdd fid ids now text p subtasks ts = new ++ ts) ∧
    (∀ (id : String) (ts : List Task),
      (toggleTask id ts).map Task.id = ts.map Task.id) ∧
    (∀ (id : String) (ts : List Task),
      List.Sublist (deleteTask id ts) ts) := by
  refine ⟨?_, ?_, ?_, ?_, ?_⟩
  · intro s₀ s hn h
    induction h with
    | refl => exact hn
    | tail _ hstep ih => exact hstep.nodup_preserved ih
  · intro newId now text p? ts
    unfold addTask
    by_cases hb : jsTrim text = ""
    · rw [if_pos hb]; exact ⟨[], rfl⟩
    · rw [if_neg hb]
      exact ⟨[⟨newId, jsTrim text, false, p?.getD Priority.LOW, now⟩], rfl⟩
  · intro fid ids now text p subtasks ts
    unfold handleSmartAdd addTask
    by_cases hb : jsTrim text = ""
    · rw [if_pos hb]; exact ⟨[], rfl⟩
    · rw [if_neg hb]
      by_cases hs : subtasks.length > 0
      · rw [if_pos hs]
        exact ⟨List.zipWith (fun i st => (⟨i, st, false, p, now⟩ : Task))
          ids subtasks, rfl⟩
      · rw [if_neg hs, if_neg hb]
        exact ⟨[⟨fid, jsTrim text, false, (some p).getD Priority.LOW, now⟩], rfl⟩
  · exact toggleTask_map_id
  · intro id ts
    exact List.filter_sublist ts

/-- Witness for `reachable_invariant`: one fresh add from the empty
list keeps the ids distinct. -/
theorem reachable_invariant_witness :
    ((addTask "i" 0 "a" none []).map Task.id).Nodup :=
  reachable_invariant.1 [] (addTask "i" 0 "a" none []) (by simp)
    (Relation.ReflTransGen.single (Step.add "i" 0 "a" none [] (by simp)))

end Pranav
